import Mathlib

/-!
Verification of the bs-quest-index registry core: the version catalog,
the resolution engine, the credential store, the artifact store and the
routes that coordinate them, shallowly embedded from the Rust source
(src/db.rs, src/file_repo.rs, src/routes.rs, src/main.rs).
-/

namespace QuestIndex

/-- Semantic version (semver::Version): three numeric components plus
pre-release and build metadata strings. -/
structure Version where
  major : Nat
  minor : Nat
  patch : Nat
  pre : String
  build : String
deriving DecidableEq, Repr

/-- Version::new, used by the DbMod-to-Mod conversion: numeric components
only, empty pre-release and build metadata. -/
def Version.new (major minor patch : Nat) : Version :=
  ⟨major, minor, patch, "", ""⟩

/-- One row of the mods table (struct DbMod in db.rs): columns id, major,
minor, patch. The numeric columns are signed 64-bit integers holding the
wrapping `as i64` cast of the u64 components; since that cast is a
bijection on u64, the fields here keep the u64 reading of each column
(what `as u64` recovers on read), and toI64 below gives the signed value
the column actually holds, which is what the SQL engine compares. The
migration files are not under src/; per the spec the table has a
uniqueness constraint on the (id, major, minor, patch) tuple, which
INSERT OR IGNORE relies on. -/
structure DbMod where
  id : String
  major : Nat
  minor : Nat
  patch : Nat
deriving DecidableEq, Repr

/-- The mods table: its bag of rows, in insertion order. -/
abbrev Catalog := List DbMod

/-- The row that Mod::insert and Mod::delete build from an id and a
version: only the three numeric components of the version are used, each
stored through the wrapping `ver.major as i64` cast. As the cast is a
bijection on u64 values, the row keeps the u64 reading of each stored
column; the reduction mod 2^64 makes the u64 truncation explicit (it is
the identity on every component semver can parse). -/
def rowOf (id : String) (ver : Version) : DbMod :=
  ⟨id, ver.major % 2 ^ 64, ver.minor % 2 ^ 64, ver.patch % 2 ^ 64⟩

/-- The JSON-facing Mod struct in db.rs: an id and a version. -/
structure Mod where
  id : String
  version : Version
deriving DecidableEq, Repr

/-- From DbMod for Mod: rebuilds the version with Version::new, so the
pre-release and build fields come back empty. -/
def DbMod.toMod (r : DbMod) : Mod :=
  ⟨r.id, Version.new r.major r.minor r.patch⟩

/-- Numeric (major, minor, patch) lexicographic order on versions; the
pre-release and build metadata play no role. -/
def verLe (a b : Version) : Prop :=
  a.major < b.major ∨
    (a.major = b.major ∧
      (a.minor < b.minor ∨ (a.minor = b.minor ∧ a.patch ≤ b.patch)))

instance : DecidableRel verLe := fun a b => by unfold verLe; infer_instance

/-- Strict numeric (major, minor, patch) lexicographic order. -/
def verLt (a b : Version) : Prop :=
  verLe a b ∧ ¬ verLe b a

instance : DecidableRel verLt := fun a b => by unfold verLt; infer_instance

/-- The signed i64 value a mods-table column holds for a component: the
wrapping `as i64` cast. Values below 2^63 are themselves; larger u64
values are stored as negatives. -/
def toI64 (n : Nat) : Int :=
  if n % 2 ^ 64 < 2 ^ 63 then ((n % 2 ^ 64 : Nat) : Int)
  else ((n % 2 ^ 64 : Nat) : Int) - 2 ^ 64

/-- Lexicographic order on the stored signed column values: the order the
SQL engine's ORDER BY major, minor, patch applies to the i64 columns. -/
def rowLe (a b : DbMod) : Prop :=
  toI64 a.major < toI64 b.major ∨
    (toI64 a.major = toI64 b.major ∧
      (toI64 a.minor < toI64 b.minor ∨
        (toI64 a.minor = toI64 b.minor ∧ toI64 a.patch ≤ toI64 b.patch)))

instance : DecidableRel rowLe := fun a b => by unfold rowLe; infer_instance

/-- Row order realising ORDER BY major DESC, minor DESC, patch DESC over
the signed i64 columns: row a may come before row b when b's stored key
is at most a's. -/
def keyGe (a b : DbMod) : Prop := rowLe b a

instance : DecidableRel keyGe := fun a b => by
  unfold keyGe; infer_instance

theorem verLe_refl (a : Version) : verLe a a := by
  unfold verLe; omega

theorem verLe_total (a b : Version) : verLe a b ∨ verLe b a := by
  unfold verLe; omega

theorem verLe_trans {a b c : Version} (h1 : verLe a b) (h2 : verLe b c) :
    verLe a c := by
  unfold verLe at *; omega

theorem verLe_antisymm {a b : Version} (h1 : verLe a b) (h2 : verLe b a) :
    a.major = b.major ∧ a.minor = b.minor ∧ a.patch = b.patch := by
  unfold verLe at *; omega

theorem rowLe_total (a b : DbMod) : rowLe a b ∨ rowLe b a := by
  unfold rowLe; omega

theorem rowLe_trans {a b c : DbMod} (h1 : rowLe a b) (h2 : rowLe b c) :
    rowLe a c := by
  unfold rowLe at *; omega

instance : IsTotal DbMod keyGe := ⟨fun a b => rowLe_total b a⟩

instance : IsTrans DbMod keyGe := ⟨fun _ _ _ h1 h2 => rowLe_trans h2 h1⟩

/-- Below the i64 wrap point the stored signed value is the component
itself. -/
theorem toI64_of_lt {n : Nat} (h : n < 2 ^ 63) : toI64 n = (n : Int) := by
  unfold toI64
  have h64 : n % 2 ^ 64 = n := Nat.mod_eq_of_lt (by omega)
  rw [h64, if_pos h]

/-- On rows whose components all lie below 2^63, the stored signed order
agrees with the numeric (major, minor, patch) order. -/
theorem keyGe_iff_verLe {a b : DbMod}
    (ha : a.major < 2 ^ 63 ∧ a.minor < 2 ^ 63 ∧ a.patch < 2 ^ 63)
    (hb : b.major < 2 ^ 63 ∧ b.minor < 2 ^ 63 ∧ b.patch < 2 ^ 63) :
    keyGe a b ↔ verLe b.toMod.version a.toMod.version := by
  unfold keyGe rowLe verLe
  rw [toI64_of_lt ha.1, toI64_of_lt ha.2.1, toI64_of_lt ha.2.2,
    toI64_of_lt hb.1, toI64_of_lt hb.2.1, toI64_of_lt hb.2.2]
  simp only [DbMod.toMod, Version.new]
  omega

/-- Mod::insert — INSERT OR IGNORE of the (id, major, minor, patch) row;
returns whether a row was actually inserted, plus the new table state. -/
def Mod.insert (id : String) (ver : Version) (c : Catalog) : Bool × Catalog :=
  let row := rowOf id ver
  if c.any (fun r => r == row) then (false, c) else (true, c ++ [row])

/-- Mod::delete — DELETE WHERE id, major, minor, patch all match; returns
whether any row was affected, plus the new table state. -/
def Mod.delete (id : String) (ver : Version) (c : Catalog) : Bool × Catalog :=
  let row := rowOf id ver
  (c.any (fun r => r == row), c.filter (fun r => r != row))

/-- Mod::list — SELECT DISTINCT id FROM mods. -/
def Mod.list (c : Catalog) : List String :=
  (c.map DbMod.id).dedup

/-- The shared SELECT of the three resolve queries: rows of one id,
ordered by major DESC, minor DESC, patch DESC over the signed i64
columns. The SQL engine is modelled by a sort of the filtered rows. -/
def Mod.queryDesc (id : String) (c : Catalog) : List DbMod :=
  List.insertionSort keyGe (c.filter (fun r => r.id == id))

/-- Mod::tfm_fn — converts a row to a Mod and keeps it only when the
requirement matches its (numeric-only) version. -/
def Mod.tfm_fn (req : Version → Bool) (r : DbMod) : Option Mod :=
  let m := r.toMod
  if req m.version then some m else none

/-- Mod::resolve_all — the filtered descending stream, collected. -/
def Mod.resolve_all (id : String) (req : Version → Bool) (c : Catalog) :
    List Mod :=
  (Mod.queryDesc id c).filterMap (Mod.tfm_fn req)

/-- Mod::resolve_one — the first element of the filtered descending
stream, if any. -/
def Mod.resolve_one (id : String) (req : Version → Bool) (c : Catalog) :
    Option Mod :=
  (Mod.resolve_all id req c).head?

/-- Mod::resolve_n — the first n elements of the filtered descending
stream. -/
def Mod.resolve_n (id : String) (req : Version → Bool) (n : Nat)
    (c : Catalog) : List Mod :=
  (Mod.resolve_all id req c).take n

/-- One row of the publish_keys table (struct DbPublishKey in db.rs):
columns pw (the token) and user. Per the spec the pw column is unique. -/
structure DbPublishKey where
  pw : String
  user : String
deriving DecidableEq, Repr

/-- The publish_keys table: its rows, in insertion order. -/
abbrev Keys := List DbPublishKey

/-- PublishKey::insert — INSERT OR IGNORE on the unique pw column. -/
def PublishKey.insert (user pw : String) (ks : Keys) : Bool × Keys :=
  if ks.any (fun k => k.pw == pw) then (false, ks)
  else (true, ks ++ [⟨pw, user⟩])

/-- PublishKey::resolve_one — SELECT WHERE pw = key, first row if any. -/
def PublishKey.resolve_one (key : String) (ks : Keys) : Option DbPublishKey :=
  ks.find? (fun k => k.pw == key)

/-- PublishKey::delete_user — DELETE WHERE user matches. -/
def PublishKey.delete_user (user : String) (ks : Keys) : Bool × Keys :=
  (ks.any (fun k => k.user == user), ks.filter (fun k => k.user != user))

/-- PublishKey::delete_pw — DELETE WHERE pw matches. -/
def PublishKey.delete_pw (pw : String) (ks : Keys) : Bool × Keys :=
  (ks.any (fun k => k.pw == pw), ks.filter (fun k => k.pw != pw))

/-- Modelled from the spec: src/config.rs is not under src/. Per the data
model (AdminTokenSet) and the routes' use of config.admin_keys, the
configuration carries a static set of admin tokens; that is the only
field the embedded routes consult (downloads_path is the root of the
filesystem model below). -/
structure Config where
  admin_keys : List String
deriving DecidableEq, Repr

/-! Artifact store: filesystem and FileRepo (file_repo.rs), and the UTF-8
text handling that String::from_utf8_lossy and fs::read_to_string apply
to artifact bytes. Bytes are modelled as lists of naturals below 256. -/

/-- A path below the downloads root, as a list of components. -/
abbrev FPath := List String

/-- The durable filesystem under the downloads root: leaf files with
their byte content, and the set of existing directories. -/
structure Fs where
  files : List (FPath × List Nat)
  dirs : List FPath
deriving DecidableEq, Repr

/-- The bytes stored at a path, if a file exists there. -/
def Fs.lookup (fs : Fs) (p : FPath) : Option (List Nat) :=
  (fs.files.find? (fun e => e.1 == p)).map Prod.snd

/-- fs::remove_file — fails (None) when no file exists at the path. -/
def Fs.removeFile (fs : Fs) (p : FPath) : Option Fs :=
  match fs.lookup p with
  | none => none
  | some _ => some { fs with files := fs.files.filter (fun e => e.1 != p) }

/-- Whether anything (file or directory) lives strictly below path p. -/
def Fs.dirNonempty (fs : Fs) (p : FPath) : Bool :=
  fs.files.any (fun e => p.isPrefixOf e.1 && decide (p.length < e.1.length)) ||
    fs.dirs.any (fun d => p.isPrefixOf d && decide (p.length < d.length))

/-- fs::remove_dir — fails (None) unless the directory exists and is
empty. -/
def Fs.removeDir (fs : Fs) (p : FPath) : Option Fs :=
  if fs.dirs.contains p && !(fs.dirNonempty p) then
    some { fs with dirs := fs.dirs.filter (fun d => d != p) }
  else none

/-- The nonempty prefixes of a path: every directory level it names. -/
def fpathLevels : FPath → List FPath
  | [] => []
  | a :: rest => [a] :: (fpathLevels rest).map (a :: ·)

/-- fs::create_dir_all — ensures every directory level of p exists. -/
def Fs.createDirAll (fs : Fs) (p : FPath) : Fs :=
  { fs with
    dirs := fs.dirs ++ (fpathLevels p).filter (fun d => !fs.dirs.contains d) }

/-- fs::write — creates or replaces the file at the path. -/
def Fs.writeFile (fs : Fs) (p : FPath) (contents : List Nat) : Fs :=
  { fs with files := fs.files.filter (fun e => e.1 != p) ++ [(p, contents)] }

/-- The leaf path id/major/minor/patch used identically by get_file,
write_file and the delete route. -/
def leafPath (id : String) (ver : Version) : FPath :=
  [id, toString ver.major, toString ver.minor, toString ver.patch]

/-- The directory id/major/minor holding the leaf. -/
def dirPath (id : String) (ver : Version) : FPath :=
  [id, toString ver.major, toString ver.minor]

/-- Whether a byte is a UTF-8 continuation byte (0x80..0xBF). -/
def isCont (b : Nat) : Bool :=
  0x80 ≤ b && b ≤ 0xBF

/-- Whether b1 is a valid second byte of a multi-byte UTF-8 sequence with
leading byte b0 (the constrained ranges of E0, ED, F0, F4). -/
def validSecond (b0 b1 : Nat) : Bool :=
  if b0 == 0xE0 then 0xA0 ≤ b1 && b1 ≤ 0xBF
  else if b0 == 0xED then 0x80 ≤ b1 && b1 ≤ 0x9F
  else if b0 == 0xF0 then 0x90 ≤ b1 && b1 ≤ 0xBF
  else if b0 == 0xF4 then 0x80 ≤ b1 && b1 ≤ 0x8F
  else isCont b1

/-- UTF-8 validity of a byte sequence, as str::from_utf8 checks it; this
is what fs::read_to_string demands of a file's content. -/
def utf8Valid : List Nat → Bool
  | [] => true
  | b0 :: rest =>
    if b0 < 0x80 then utf8Valid rest
    else if 0xC2 ≤ b0 && b0 ≤ 0xDF then
      match rest with
      | b1 :: rest2 => isCont b1 && utf8Valid rest2
      | [] => false
    else if 0xE0 ≤ b0 && b0 ≤ 0xEF then
      match rest with
      | b1 :: rest2 =>
        validSecond b0 b1 &&
          (match rest2 with
           | b2 :: rest3 => isCont b2 && utf8Valid rest3
           | [] => false)
      | [] => false
    else if 0xF0 ≤ b0 && b0 ≤ 0xF4 then
      match rest with
      | b1 :: rest2 =>
        validSecond b0 b1 &&
          (match rest2 with
           | b2 :: rest3 =>
             isCont b2 &&
               (match rest3 with
                | b3 :: rest4 => isCont b3 && utf8Valid rest4
                | [] => false)
           | [] => false)
      | [] => false
    else false

/-- The UTF-8 encoding of U+FFFD, the replacement character. -/
def replChar : List Nat := [0xEF, 0xBF, 0xBD]

/-- Worker for utf8Lossy, structurally recursive on a fuel argument that
is kept at least one above the length of the remaining input, so the fuel
never runs out; it exists only to drive termination. Valid sequences pass
through; each maximal invalid subpart is replaced by U+FFFD. -/
def utf8LossyAux : Nat → List Nat → List Nat
  | 0, _ => []
  | _ + 1, [] => []
  | fuel + 1, b0 :: rest =>
    if b0 < 0x80 then b0 :: utf8LossyAux fuel rest
    else if 0xC2 ≤ b0 && b0 ≤ 0xDF then
      match rest with
      | b1 :: rest2 =>
        if isCont b1 then b0 :: b1 :: utf8LossyAux fuel rest2
        else replChar ++ utf8LossyAux fuel (b1 :: rest2)
      | [] => replChar
    else if 0xE0 ≤ b0 && b0 ≤ 0xEF then
      match rest with
      | b1 :: rest2 =>
        if validSecond b0 b1 then
          match rest2 with
          | b2 :: rest3 =>
            if isCont b2 then b0 :: b1 :: b2 :: utf8LossyAux fuel rest3
            else replChar ++ utf8LossyAux fuel (b2 :: rest3)
          | [] => replChar
        else replChar ++ utf8LossyAux fuel (b1 :: rest2)
      | [] => replChar
    else if 0xF0 ≤ b0 && b0 ≤ 0xF4 then
      match rest with
      | b1 :: rest2 =>
        if validSecond b0 b1 then
          match rest2 with
          | b2 :: rest3 =>
            if isCont b2 then
              match rest3 with
              | b3 :: rest4 =>
                if isCont b3 then
                  b0 :: b1 :: b2 :: b3 :: utf8LossyAux fuel rest4
                else replChar ++ utf8LossyAux fuel (b3 :: rest4)
              | [] => replChar
            else replChar ++ utf8LossyAux fuel (b2 :: rest3)
          | [] => replChar
        else replChar ++ utf8LossyAux fuel (b1 :: rest2)
      | [] => replChar
    else replChar ++ utf8LossyAux fuel rest

/-- String::from_utf8_lossy followed by re-encoding: the bytes of the
string the cache stores. -/
def utf8Lossy (l : List Nat) : List Nat :=
  utf8LossyAux (l.length + 1) l

/-- The FileRepo in-memory cache: a map from (id, version) to the bytes
of the cached String (HashMap<(String, Version), String>). -/
abbrev Cache := List ((String × Version) × List Nat)

/-- HashMap::get on the cache. -/
def cacheGet (c : Cache) (k : String × Version) : Option (List Nat) :=
  (c.find? (fun e => e.1 == k)).map Prod.snd

/-- HashMap::insert on the cache: replaces any entry with the same key. -/
def cacheInsert (c : Cache) (k : String × Version) (v : List Nat) : Cache :=
  c.filter (fun e => e.1 != k) ++ [(k, v)]

/-- FileRepo::get_file — cache hit returns the cached string; on a miss,
read_to_string the leaf path (failing, None, when the file is absent or
its bytes are not valid UTF-8) and populate the cache. -/
def FileRepo.get_file (id : String) (ver : Version) (cache : Cache)
    (fs : Fs) : Option (List Nat) × Cache :=
  match cacheGet cache (id, ver) with
  | some o => (some o, cache)
  | none =>
    match fs.lookup (leafPath id ver) with
    | none => (none, cache)
    | some contents =>
      if utf8Valid contents then
        (some contents, cacheInsert cache (id, ver) contents)
      else (none, cache)

/-- FileRepo::write_file — caches String::from_utf8_lossy(contents),
creates the id/major/minor directories, then writes the raw bytes to the
leaf path. -/
def FileRepo.write_file (id : String) (ver : Version) (contents : List Nat)
    (cache : Cache) (fs : Fs) : Cache × Fs :=
  let cache2 := cacheInsert cache (id, ver) (utf8Lossy contents)
  let fs1 := fs.createDirAll (dirPath id ver)
  let fs2 := fs1.writeFile (leafPath id ver) contents
  (cache2, fs2)

/-! Routes (routes.rs): the coordinator composing catalog, credential
store and artifact store. The or_ise / or_nf combinators come from
src/errors.rs, which is not under src/; per the spec's error taxonomy
or_nf surfaces a missing value (an absent file, a None, a false delete
result) as NotFound, and or_ise surfaces engine failures as
InternalError. Engine and filesystem I/O always succeeds in this model,
so only the NotFound conversions appear below. -/

/-- The user-visible outcome of a route: the HTTP replies routes.rs
produces. -/
inductive HResp where
  | okBytes (contents : List Nat)
  | okJsonOne (m : Mod)
  | okJsonMany (ms : List Mod)
  | okJsonIds (ids : List String)
  | ok
  | created
  | conflict
  | notFound
  | unauthorized
deriving DecidableEq, Repr

/-- The full mutable state the routes share: the two database tables, the
durable artifact tree and the in-memory artifact cache. -/
structure St where
  mods : Catalog
  keys : Keys
  fs : Fs
  cache : Cache
deriving DecidableEq, Repr

/-- The auth filter: the Authorization header must be present and resolve
to a publish_keys row. -/
def auth (header : Option String) (ks : Keys) : Bool :=
  match header with
  | none => false
  | some k => (PublishKey.resolve_one k ks).isSome

/-- The auth_admin filter: the Authorization header must be present and
be one of the configured admin keys. -/
def auth_admin (header : Option String) (cfg : Config) : Bool :=
  match header with
  | none => false
  | some k => cfg.admin_keys.contains k

/-- GET / — the list route. -/
def list (st : St) : HResp :=
  .okJsonIds (Mod.list st.mods)

/-- GET /{id}?req=&limit= — the resolve route: limit 1 surfaces an empty
result as NotFound via or_nf; limit 0 returns all matches; any other
limit n returns the first n matches. -/
def resolve (id : String) (req : Version → Bool) (limit : Nat)
    (c : Catalog) : HResp :=
  if limit == 1 then
    match Mod.resolve_one id req c with
    | some m => .okJsonOne m
    | none => .notFound
  else if limit == 0 then .okJsonMany (Mod.resolve_all id req c)
  else .okJsonMany (Mod.resolve_n id req limit c)

/-- GET /{id}/{version} — the download route: any get_file failure is
surfaced as NotFound via or_nf. -/
def download (id : String) (ver : Version) (st : St) : HResp × St :=
  match FileRepo.get_file id ver st.cache st.fs with
  | (some contents, cache2) => (.okBytes contents, { st with cache := cache2 })
  | (none, cache2) => (.notFound, { st with cache := cache2 })

/-- POST /{id}/{version} — the upload route behind the auth filter:
insert the catalog row (Conflict when it already exists, with no artifact
write), then write the artifact. -/
def upload (header : Option String) (id : String) (ver : Version)
    (contents : List Nat) (st : St) : HResp × St :=
  if !auth header st.keys then (.unauthorized, st)
  else
    match Mod.insert id ver st.mods with
    | (false, mods2) => (.conflict, { st with mods := mods2 })
    | (true, mods2) =>
      let (cache2, fs2) := FileRepo.write_file id ver contents st.cache st.fs
      (.created, { st with mods := mods2, fs := fs2, cache := cache2 })

/-- The bounded upward directory-cleanup loop of the delete route: up to
n attempts, each removing the current directory if empty and moving to
its parent, stopping at the first failure. -/
def rmDirLoop : Nat → Fs → FPath → Fs
  | 0, fs, _ => fs
  | n + 1, fs, dir =>
    match fs.removeDir dir with
    | none => fs
    | some fs2 => rmDirLoop n fs2 dir.dropLast

/-- DELETE /{id}/{version} — the delete route behind the auth_admin
filter: remove the leaf file (absent leaf is NotFound via or_nf, nothing
else happens), walk up to three directory levels removing empty
directories, then delete the catalog row (a false result is surfaced as
NotFound via or_nf, with the file-side changes kept). -/
def delete (header : Option String) (id : String) (ver : Version)
    (cfg : Config) (st : St) : HResp × St :=
  if !auth_admin header cfg then (.unauthorized, st)
  else
    match st.fs.removeFile (leafPath id ver) with
    | none => (.notFound, st)
    | some fs1 =>
      let fs2 := rmDirLoop 3 fs1 (dirPath id ver)
      match Mod.delete id ver st.mods with
      | (deleted, mods2) =>
        let st2 := { st with fs := fs2, mods := mods2 }
        if deleted then (.ok, st2) else (.notFound, st2)

/-- POST /publish_key — the add_key route behind auth_admin. -/
def add_key (user pw : String) (st : St) : HResp × St :=
  match PublishKey.insert user pw st.keys with
  | (false, ks2) => (.conflict, { st with keys := ks2 })
  | (true, ks2) => (.created, { st with keys := ks2 })

/-- POST /delete_key — the delete_key route behind auth_admin, keyed by
pw here (the user-keyed variant is analogous). -/
def delete_key_pw (pw : String) (st : St) : HResp × St :=
  match PublishKey.delete_pw pw st.keys with
  | (false, ks2) => (.notFound, { st with keys := ks2 })
  | (true, ks2) => (.ok, { st with keys := ks2 })

/-! Helper lemmas about the embedded operations. -/

theorem DbMod.toMod_injective : Function.Injective DbMod.toMod := by
  intro a b h
  cases a; cases b
  simp only [DbMod.toMod, Version.new, Mod.mk.injEq, Version.mk.injEq] at h
  simp_all

theorem Mod.tfm_fn_eq_some {req : Version → Bool} {r : DbMod} {m : Mod} :
    Mod.tfm_fn req r = some m ↔ req r.toMod.version = true ∧ m = r.toMod := by
  show (if req r.toMod.version then some r.toMod else none) = some m ↔ _
  split
  · rename_i h
    simp only [Option.some.injEq, h, true_and]
    exact ⟨fun e => e.symm, fun e => e.symm⟩
  · rename_i h
    simp [h]

theorem Mod.mem_resolve_all {id : String} {req : Version → Bool} {c : Catalog}
    {m : Mod} :
    m ∈ Mod.resolve_all id req c ↔
      ∃ r ∈ c, r.id = id ∧ req r.toMod.version = true ∧ m = r.toMod := by
  unfold Mod.resolve_all Mod.queryDesc
  rw [List.mem_filterMap]
  constructor
  · rintro ⟨r, hr, hf⟩
    rw [(List.perm_insertionSort keyGe _).mem_iff, List.mem_filter] at hr
    obtain ⟨hreq, hm⟩ := Mod.tfm_fn_eq_some.mp hf
    exact ⟨r, hr.1, by simpa using hr.2, hreq, hm⟩
  · rintro ⟨r, hrc, hrid, hreq, hm⟩
    refine ⟨r, ?_, Mod.tfm_fn_eq_some.mpr ⟨hreq, hm⟩⟩
    rw [(List.perm_insertionSort keyGe _).mem_iff, List.mem_filter]
    exact ⟨hrc, by simpa using hrid⟩

theorem Mod.resolve_all_sorted {id : String} {req : Version → Bool}
    {c : Catalog}
    (hbound : ∀ r ∈ c, r.id = id →
      r.major < 2 ^ 63 ∧ r.minor < 2 ^ 63 ∧ r.patch < 2 ^ 63) :
    (Mod.resolve_all id req c).Pairwise fun a b => verLe b.version a.version := by
  unfold Mod.resolve_all Mod.queryDesc
  have hs : (List.insertionSort keyGe
      (c.filter (fun r => r.id == id))).Pairwise
      (fun a b => verLe b.toMod.version a.toMod.version) := by
    refine (List.sorted_insertionSort keyGe _).imp_of_mem ?_
    intro a b ha hb hab
    have hamem := ((List.perm_insertionSort keyGe _).mem_iff).mp ha
    have hbmem := ((List.perm_insertionSort keyGe _).mem_iff).mp hb
    rw [List.mem_filter] at hamem hbmem
    exact (keyGe_iff_verLe
      (hbound a hamem.1 (by simpa using hamem.2))
      (hbound b hbmem.1 (by simpa using hbmem.2))).mp hab
  refine List.Pairwise.filterMap _ ?_ hs
  intro a b hab x hx y hy
  obtain ⟨_, hxa⟩ := Mod.tfm_fn_eq_some.mp (by simpa using hx)
  obtain ⟨_, hyb⟩ := Mod.tfm_fn_eq_some.mp (by simpa using hy)
  subst hxa; subst hyb
  exact hab

theorem Mod.resolve_all_nodup {id : String} {req : Version → Bool}
    {c : Catalog} (h : c.Nodup) : (Mod.resolve_all id req c).Nodup := by
  unfold Mod.resolve_all Mod.queryDesc
  refine List.Nodup.filterMap ?_ ?_
  · intro a a' b hb hb'
    obtain ⟨_, hba⟩ := Mod.tfm_fn_eq_some.mp (by simpa using hb)
    obtain ⟨_, hba'⟩ := Mod.tfm_fn_eq_some.mp (by simpa using hb')
    exact DbMod.toMod_injective (by rw [← hba, ← hba'])
  · exact (List.perm_insertionSort keyGe _).symm.nodup (h.filter _)

theorem Mod.resolve_all_strict {id : String} {req : Version → Bool}
    {c : Catalog} (h : c.Nodup)
    (hbound : ∀ r ∈ c, r.id = id →
      r.major < 2 ^ 63 ∧ r.minor < 2 ^ 63 ∧ r.patch < 2 ^ 63) :
    (Mod.resolve_all id req c).Pairwise fun a b => verLt b.version a.version := by
  have hp := (@Mod.resolve_all_sorted id req c hbound).and
    (@Mod.resolve_all_nodup id req c h)
  refine hp.imp_of_mem ?_
  intro a b ha hb hab
  obtain ⟨r, _, hrid, _, har⟩ := Mod.mem_resolve_all.mp ha
  obtain ⟨s, _, hsid, _, hbs⟩ := Mod.mem_resolve_all.mp hb
  refine ⟨hab.1, fun hba => hab.2 ?_⟩
  obtain ⟨h1, h2, h3⟩ := verLe_antisymm hba hab.1
  subst har; subst hbs
  have hid : r.id = s.id := hrid.trans hsid.symm
  simp only [DbMod.toMod, Version.new, Mod.mk.injEq, Version.mk.injEq] at h1 h2 h3 ⊢
  simp [hid, h1, h2, h3]

theorem Mod.resolve_one_max {id : String} {req : Version → Bool} {c : Catalog}
    {m : Mod}
    (hbound : ∀ r ∈ c, r.id = id →
      r.major < 2 ^ 63 ∧ r.minor < 2 ^ 63 ∧ r.patch < 2 ^ 63)
    (hm : Mod.resolve_one id req c = some m) :
    (∃ r ∈ c, r.id = id ∧ req r.toMod.version = true ∧ m = r.toMod) ∧
      ∀ r ∈ c, r.id = id → req r.toMod.version = true →
        verLe r.toMod.version m.version := by
  unfold Mod.resolve_one at hm
  cases hall : Mod.resolve_all id req c with
  | nil => rw [hall] at hm; cases hm
  | cons a t =>
    rw [hall] at hm
    simp only [List.head?_cons, Option.some.injEq] at hm
    subst hm
    constructor
    · exact Mod.mem_resolve_all.mp (by rw [hall]; exact List.mem_cons_self a t)
    · intro r hr hrid hreq
      have hmem : r.toMod ∈ Mod.resolve_all id req c :=
        Mod.mem_resolve_all.mpr ⟨r, hr, hrid, hreq, rfl⟩
      rw [hall] at hmem
      rcases List.mem_cons.mp hmem with he | ht
      · rw [he]; exact verLe_refl _
      · have hp := @Mod.resolve_all_sorted id req c hbound
        rw [hall] at hp
        exact List.rel_of_pairwise_cons hp ht

theorem Mod.resolve_one_none {id : String} {req : Version → Bool} {c : Catalog}
    (hm : Mod.resolve_one id req c = none) :
    ∀ r ∈ c, r.id = id → req r.toMod.version = false := by
  intro r hr hrid
  unfold Mod.resolve_one at hm
  rw [List.head?_eq_none_iff] at hm
  cases hq : req r.toMod.version
  · rfl
  · have hmem : r.toMod ∈ Mod.resolve_all id req c :=
      Mod.mem_resolve_all.mpr ⟨r, hr, hrid, hq, rfl⟩
    rw [hm] at hmem
    cases hmem

theorem Mod.insert_of_mem {id : String} {ver : Version} {c : Catalog}
    (h : rowOf id ver ∈ c) : Mod.insert id ver c = (false, c) := by
  unfold Mod.insert
  have ha : c.any (fun r => r == rowOf id ver) = true := by
    rw [List.any_eq_true]; exact ⟨_, h, by simp⟩
  simp [ha]

theorem Mod.insert_of_not_mem {id : String} {ver : Version} {c : Catalog}
    (h : rowOf id ver ∉ c) :
    Mod.insert id ver c = (true, c ++ [rowOf id ver]) := by
  unfold Mod.insert
  have ha : c.any (fun r => r == rowOf id ver) = false := by
    rw [Bool.eq_false_iff]
    intro hc
    rw [List.any_eq_true] at hc
    obtain ⟨r, hr, he⟩ := hc
    exact h ((beq_iff_eq.mp he) ▸ hr)
  simp [ha]

theorem Mod.delete_of_mem {id : String} {ver : Version} {c : Catalog}
    (h : rowOf id ver ∈ c) :
    Mod.delete id ver c = (true, c.filter (fun r => r != rowOf id ver)) := by
  unfold Mod.delete
  have ha : c.any (fun r => r == rowOf id ver) = true := by
    rw [List.any_eq_true]; exact ⟨_, h, by simp⟩
  simp [ha]

theorem Fs.removeDir_files {fs fs2 : Fs} {p : FPath}
    (h : fs.removeDir p = some fs2) : fs2.files = fs.files := by
  unfold Fs.removeDir at h
  split at h
  · cases h; rfl
  · cases h

theorem rmDirLoop_files (n : Nat) (fs : Fs) (d : FPath) :
    (rmDirLoop n fs d).files = fs.files := by
  induction n generalizing fs d with
  | zero => rfl
  | succ n ih =>
    unfold rmDirLoop
    cases h : fs.removeDir d with
    | none => rfl
    | some fs2 => rw [ih, Fs.removeDir_files h]

theorem Fs.lookup_eq_of_files {fs fs2 : Fs} (h : fs2.files = fs.files)
    (p : FPath) : fs2.lookup p = fs.lookup p := by
  unfold Fs.lookup; rw [h]

theorem Fs.lookup_filter_out (fs : Fs) (p : FPath) :
    Fs.lookup { fs with files := fs.files.filter (fun e => e.1 != p) } p =
      none := by
  unfold Fs.lookup
  rw [Option.map_eq_none', List.find?_eq_none]
  intro x hx
  rw [List.mem_filter] at hx
  simpa using hx.2

theorem delete_preserves_cache (header : Option String) (id : String)
    (ver : Version) (cfg : Config) (st : St) :
    (delete header id ver cfg st).2.cache = st.cache := by
  unfold delete
  split
  · rfl
  · cases h : st.fs.removeFile (leafPath id ver) with
    | none => simp [h]
    | some fs1 =>
      cases hd : Mod.delete id ver st.mods with
      | mk deleted mods2 => simp [h, hd]; split <;> rfl

/-! The claims. -/

/-- C2 counterexample catalog: versions 2^63.0.0 and 1.0.0 of one id.
The first is stored through the wrapping `as i64` cast as a negative
column value, so ORDER BY major DESC puts it last. -/
def bigCat : Catalog := [⟨"big", 2 ^ 63, 0, 0⟩, ⟨"big", 1, 0, 0⟩]

/-- C2 counterexample: with a component at 2^63 the claim as stated
fails. Version 2^63.0.0 of "big" is stored and matches the any-version
requirement and is numerically greater than 1.0.0, yet Resolve with
limit=1 returns 1.0.0: the stored signed value of 2^63 is negative, so
the program's descending order is not the numeric one. -/
theorem C2_counterexample :
    Mod.resolve_one "big" (fun _ => true) bigCat =
      some ⟨"big", Version.new 1 0 0⟩ ∧
    rowOf "big" (Version.new (2 ^ 63) 0 0) ∈ bigCat ∧
    ¬ verLe (Version.new (2 ^ 63) 0 0) (Version.new 1 0 0) ∧
    resolve "big" (fun _ => true) 1 bigCat =
      .okJsonOne ⟨"big", Version.new 1 0 0⟩ := by
  refine ⟨by decide, by decide, by decide, by decide⟩

/-- C2 amended: provided every stored component of the queried id lies
below 2^63 — the i64 wrap point, beyond which the `as i64` cast in db.rs
stores a negative value and the SQL order diverges from the numeric one —
Resolve with limit=1 returns the version with the numerically greatest
(major, minor, patch) triple among stored versions satisfying the
requirement, or none when no version matches; with limit=0 it returns
every match in strictly descending (major, minor, patch) order; with any
other limit n it returns the first n matches in that order, fewer than n
when exhausted; and the resolve route dispatches each limit value
accordingly. -/
theorem C2_resolve_semantics (id : String) (req : Version → Bool)
    (c : Catalog) (hnd : c.Nodup)
    (hbound : ∀ r ∈ c, r.id = id →
      r.major < 2 ^ 63 ∧ r.minor < 2 ^ 63 ∧ r.patch < 2 ^ 63) :
    (∀ m, Mod.resolve_one id req c = some m →
      (∃ r ∈ c, r.id = id ∧ req r.toMod.version = true ∧ m = r.toMod) ∧
        ∀ r ∈ c, r.id = id → req r.toMod.version = true →
          verLe r.toMod.version m.version) ∧
    (Mod.resolve_one id req c = none →
      ∀ r ∈ c, r.id = id → req r.toMod.version = false) ∧
    (∀ m, m ∈ Mod.resolve_all id req c ↔
      ∃ r ∈ c, r.id = id ∧ req r.toMod.version = true ∧ m = r.toMod) ∧
    ((Mod.resolve_all id req c).Pairwise fun a b =>
      verLt b.version a.version) ∧
    (∀ n, Mod.resolve_n id req n c = (Mod.resolve_all id req c).take n) ∧
    (∀ m, Mod.resolve_one id req c = some m →
      resolve id req 1 c = .okJsonOne m) ∧
    (Mod.resolve_one id req c = none → resolve id req 1 c = .notFound) ∧
    (resolve id req 0 c = .okJsonMany (Mod.resolve_all id req c)) ∧
    (∀ n, n ≠ 0 → n ≠ 1 →
      resolve id req n c = .okJsonMany (Mod.resolve_n id req n c)) := by
  refine ⟨fun m hm => Mod.resolve_one_max hbound hm, Mod.resolve_one_none,
    fun m => Mod.mem_resolve_all, Mod.resolve_all_strict hnd hbound,
    fun n => rfl, ?_, ?_, ?_, ?_⟩
  · intro m hm; simp [resolve, hm]
  · intro hm; simp [resolve, hm]
  · simp [resolve]
  · intro n h0 h1
    have e1 : (n == 1) = false := by simpa using h1
    have e0 : (n == 0) = false := by simpa using h0
    simp [resolve, e1, e0]

/-- Witness catalog: bshook 1.0.0, bshook 1.2.0 and hsv 2.3.4, as in the
repository's test. -/
def wcat : Catalog := [⟨"bshook", 1, 0, 0⟩, ⟨"bshook", 1, 2, 0⟩, ⟨"hsv", 2, 3, 4⟩]

theorem C2_resolve_semantics_witness :
    Mod.resolve_n "bshook" (fun v => decide (v.major = 1)) 1 wcat =
      (Mod.resolve_all "bshook" (fun v => decide (v.major = 1)) wcat).take 1 ∧
    Mod.resolve_one "bshook" (fun v => decide (v.major = 1)) wcat =
      some ⟨"bshook", Version.new 1 2 0⟩ :=
  ⟨(C2_resolve_semantics "bshook" (fun v => decide (v.major = 1)) wcat
      (by decide) (by decide)).2.2.2.2.1 1,
    by decide⟩

/-- C7 counterexample: with limit=0 (and likewise any limit other than 1)
and a requirement no stored version satisfies, the resolve route succeeds
with an empty array instead of failing NotFound. -/
theorem C7_counterexample :
    resolve "bshook" (fun _ => false) 0 wcat = .okJsonMany [] ∧
      resolve "bshook" (fun _ => false) 0 wcat ≠ .notFound := by
  decide

/-- C7 amended: when no stored version of the id satisfies the
requirement, the resolve route fails NotFound for limit=1, but for
limit=0 and for every other limit value it succeeds with an empty
array. -/
theorem C7_resolve_no_match (id : String) (req : Version → Bool)
    (c : Catalog) (limit : Nat)
    (hno : ∀ r ∈ c, r.id = id → req r.toMod.version = false) :
    (limit = 1 → resolve id req limit c = .notFound) ∧
      (limit ≠ 1 → resolve id req limit c = .okJsonMany []) := by
  have hall : Mod.resolve_all id req c = [] := by
    cases hq : Mod.resolve_all id req c with
    | nil => rfl
    | cons a t =>
      have hmem : a ∈ Mod.resolve_all id req c := by
        rw [hq]; exact List.mem_cons_self a t
      obtain ⟨r, hr, hrid, hreq, _⟩ := Mod.mem_resolve_all.mp hmem
      rw [hno r hr hrid] at hreq; cases hreq
  have hone : Mod.resolve_one id req c = none := by
    unfold Mod.resolve_one; rw [hall]; rfl
  constructor
  · intro h; subst h; simp [resolve, hone]
  · intro h
    by_cases h0 : limit = 0
    · subst h0; simp [resolve, hall]
    · have e1 : (limit == 1) = false := by simpa using h
      have e0 : (limit == 0) = false := by simpa using h0
      simp [resolve, e1, e0, Mod.resolve_n, hall]

theorem C7_resolve_no_match_witness :
    resolve "nope" (fun _ => true) 1 wcat = .notFound :=
  (C7_resolve_no_match "nope" (fun _ => true) wcat 1 (by decide)).1 rfl

/-- Witness state: empty catalog and stores, one publisher key. -/
def wst : St := ⟨[], [⟨"password", "test"⟩], ⟨[], []⟩, []⟩

/-- The state after publishing the single non-UTF-8 byte 0xFF into wst. -/
def c1St1 : St :=
  (upload (some "password") "m" (Version.new 1 0 0) [0xFF] wst).2

/-- C1: the artifact store cache does not preserve exact byte content.
Publishing the single byte 0xFF succeeds, but the cache records the lossy
UTF-8 reinterpretation (U+FFFD, bytes EF BF BD), and the download after
the publish returns those three bytes instead of the published byte,
while the durable file does hold the original byte. The spec requires
byte-for-byte identical downloads and verbatim caching, so this is a
defect of the code, not of the claim. -/
theorem C1_lossy_cache_code_bug :
    (upload (some "password") "m" (Version.new 1 0 0) [0xFF] wst).1 =
      .created ∧
    download "m" (Version.new 1 0 0) c1St1 =
      (.okBytes [0xEF, 0xBF, 0xBD], c1St1) ∧
    ([0xEF, 0xBF, 0xBD] : List Nat) ≠ [0xFF] ∧
    c1St1.fs.lookup (leafPath "m" (Version.new 1 0 0)) = some [0xFF] ∧
    cacheGet c1St1.cache ("m", Version.new 1 0 0) =
      some [0xEF, 0xBF, 0xBD] := by
  refine ⟨by decide, by decide, by decide, by decide, by decide⟩

/-- C3: publishing an (id, version) pair whose catalog row already exists
fails with Conflict and leaves the whole state — catalog rows, durable
files and cache — unchanged, so no artifact write occurs and the stored
bytes for that key are untouched. -/
theorem C3_conflict_no_write (header : Option String) (id : String)
    (ver : Version) (contents : List Nat) (st : St)
    (hauth : auth header st.keys = true)
    (hmem : rowOf id ver ∈ st.mods) :
    upload header id ver contents st = (.conflict, st) := by
  simp [upload, hauth, Mod.insert_of_mem hmem]

/-- Witness state for C3: the bshook 1.0.0 row present, artifact bytes on
disk. -/
def wst2 : St :=
  ⟨[rowOf "bshook" (Version.new 1 0 0)], [⟨"password", "test"⟩],
    ⟨[(["bshook", "1", "0", "0"], [1, 2])],
      [["bshook"], ["bshook", "1"], ["bshook", "1", "0"]]⟩, []⟩

theorem C3_conflict_no_write_witness :
    upload (some "password") "bshook" (Version.new 1 0 0) [9, 9] wst2 =
      (.conflict, wst2) :=
  C3_conflict_no_write (some "password") "bshook" (Version.new 1 0 0)
    [9, 9] wst2 (by decide) (by decide)

/-- C4: publish with a missing Authorization header, or one that does not
resolve in the credential store, fails Unauthorized and leaves the whole
state unchanged: no catalog row is inserted and no artifact is
written. -/
theorem C4_unauthorized_no_insert (header : Option String) (id : String)
    (ver : Version) (contents : List Nat) (st : St)
    (hbad : header = none ∨
      ∀ k, header = some k → PublishKey.resolve_one k st.keys = none) :
    upload header id ver contents st = (.unauthorized, st) := by
  have hauth : auth header st.keys = false := by
    rcases hbad with h | h
    · rw [h]; rfl
    · cases header with
      | none => rfl
      | some k => simp [auth, h k rfl]
  simp [upload, hauth]

theorem C4_unauthorized_no_insert_witness :
    upload none "m" (Version.new 1 0 0) [1] wst = (.unauthorized, wst) :=
  C4_unauthorized_no_insert none "m" (Version.new 1 0 0) [1] wst
    (Or.inl rfl)

/-- C5: an authorized delete of a key whose artifact leaf file is absent
fails with NotFound and changes nothing: the catalog row (if any), every
directory and the cache are exactly as before. -/
theorem C5_delete_absent_leaf (header : Option String) (id : String)
    (ver : Version) (cfg : Config) (st : St)
    (hadmin : auth_admin header cfg = true)
    (habs : st.fs.lookup (leafPath id ver) = none) :
    delete header id ver cfg st = (.notFound, st) := by
  have hrm : st.fs.removeFile (leafPath id ver) = none := by
    unfold Fs.removeFile; rw [habs]
  simp [delete, hadmin, hrm]

theorem C5_delete_absent_leaf_witness :
    delete (some "admin") "m" (Version.new 1 0 0) ⟨["admin"]⟩ wst =
      (.notFound, wst) :=
  C5_delete_absent_leaf (some "admin") "m" (Version.new 1 0 0) ⟨["admin"]⟩
    wst (by decide) (by decide)

/-- C6: Catalog.insert inserts the pair and returns true when the
(id, version) row is absent; when the row already exists it performs no
write, leaves the catalog unchanged and returns false; and the catalog
stays duplicate-free across every insert. -/
theorem C6_insert_unique (id : String) (ver : Version) (c : Catalog) :
    (rowOf id ver ∉ c →
      Mod.insert id ver c = (true, c ++ [rowOf id ver])) ∧
    (rowOf id ver ∈ c → Mod.insert id ver c = (false, c)) ∧
    (c.Nodup → ((Mod.insert id ver c).2).Nodup) := by
  refine ⟨Mod.insert_of_not_mem, Mod.insert_of_mem, ?_⟩
  intro h
  by_cases hm : rowOf id ver ∈ c
  · rw [Mod.insert_of_mem hm]; exact h
  · rw [Mod.insert_of_not_mem hm]
    simp [List.nodup_append, h, List.disjoint_singleton, hm]

theorem C6_insert_unique_witness :
    Mod.insert "bshook" (Version.new 1 0 0) [] =
      (true, [] ++ [rowOf "bshook" (Version.new 1 0 0)]) ∧
    Mod.insert "bshook" (Version.new 1 0 0)
        [rowOf "bshook" (Version.new 1 0 0)] =
      (false, [rowOf "bshook" (Version.new 1 0 0)]) :=
  ⟨(C6_insert_unique "bshook" (Version.new 1 0 0) []).1 (by decide),
    (C6_insert_unique "bshook" (Version.new 1 0 0)
      [rowOf "bshook" (Version.new 1 0 0)]).2.1 (by decide)⟩

/-- C8: an authorized delete of a key present in both the catalog and the
artifact store reports OK, removes the leaf file and the catalog row, and
a subsequent authorized publish of the same (id, version) succeeds with
Created — no residual Conflict. -/
theorem C8_delete_then_republish (atok ptok : Option String) (id : String)
    (ver : Version) (contents : List Nat) (cfg : Config) (st : St)
    (hadmin : auth_admin atok cfg = true)
    (hauth : auth ptok st.keys = true)
    (hfile : st.fs.lookup (leafPath id ver) ≠ none)
    (hrow : rowOf id ver ∈ st.mods) :
    (delete atok id ver cfg st).1 = .ok ∧
    (delete atok id ver cfg st).2.fs.lookup (leafPath id ver) = none ∧
    rowOf id ver ∉ (delete atok id ver cfg st).2.mods ∧
    (upload ptok id ver contents (delete atok id ver cfg st).2).1 =
      .created := by
  obtain ⟨b, hb⟩ := Option.ne_none_iff_exists'.mp hfile
  have hrf : st.fs.removeFile (leafPath id ver) =
      some { st.fs with
        files := st.fs.files.filter (fun e => e.1 != leafPath id ver) } := by
    unfold Fs.removeFile; rw [hb]
  have hD : delete atok id ver cfg st =
      (.ok,
        { st with
          fs := rmDirLoop 3
            { st.fs with
              files := st.fs.files.filter (fun e => e.1 != leafPath id ver) }
            (dirPath id ver),
          mods := st.mods.filter (fun r => r != rowOf id ver) }) := by
    simp [delete, hadmin, hrf, Mod.delete_of_mem hrow]
  rw [hD]
  have hnm : rowOf id ver ∉
      st.mods.filter (fun r => r != rowOf id ver) := by
    simp [List.mem_filter]
  refine ⟨rfl, ?_, hnm, ?_⟩
  · rw [Fs.lookup_eq_of_files (rmDirLoop_files 3 _ _) (leafPath id ver)]
    exact Fs.lookup_filter_out st.fs (leafPath id ver)
  · simp [upload, hauth, Mod.insert_of_not_mem hnm]

/-- Witness state for C8 and C9: the hsv 2.3.4 row, leaf file and a warm
cache entry for the same key. -/
def wst3 : St :=
  ⟨[rowOf "hsv" (Version.new 2 3 4)], [⟨"password", "test"⟩],
    ⟨[(["hsv", "2", "3", "4"], [7])],
      [["hsv"], ["hsv", "2"], ["hsv", "2", "3"]]⟩,
    [(("hsv", Version.new 2 3 4), [7])]⟩

theorem C8_delete_then_republish_witness :
    (delete (some "admin") "hsv" (Version.new 2 3 4) ⟨["admin"]⟩ wst3).1 =
      .ok ∧
    (upload (some "password") "hsv" (Version.new 2 3 4) [8]
      (delete (some "admin") "hsv" (Version.new 2 3 4) ⟨["admin"]⟩
        wst3).2).1 = .created :=
  ⟨(C8_delete_then_republish (some "admin") (some "password") "hsv"
      (Version.new 2 3 4) [8] ⟨["admin"]⟩ wst3 (by decide) (by decide)
      (by decide) (by decide)).1,
    (C8_delete_then_republish (some "admin") (some "password") "hsv"
      (Version.new 2 3 4) [8] ⟨["admin"]⟩ wst3 (by decide) (by decide)
      (by decide) (by decide)).2.2.2⟩

/-- C9: delete never touches the artifact store's in-memory cache: when
the cache holds content for a key, a download issued after a successful
delete of that key still answers from the cache with that content instead
of failing NotFound. -/
theorem C9_cache_survives_delete (header : Option String) (id : String)
    (ver : Version) (cfg : Config) (st : St) (s : List Nat)
    (hcache : cacheGet st.cache (id, ver) = some s)
    (hok : (delete header id ver cfg st).1 = .ok) :
    download id ver (delete header id ver cfg st).2 =
      (.okBytes s, (delete header id ver cfg st).2) := by
  have hc := delete_preserves_cache header id ver cfg st
  have hg : FileRepo.get_file id ver (delete header id ver cfg st).2.cache
      (delete header id ver cfg st).2.fs =
      (some s, (delete header id ver cfg st).2.cache) := by
    unfold FileRepo.get_file
    rw [hc, hcache]
  unfold download
  rw [hg]

theorem C9_cache_survives_delete_witness :
    download "hsv" (Version.new 2 3 4)
      (delete (some "admin") "hsv" (Version.new 2 3 4) ⟨["admin"]⟩ wst3).2 =
      (.okBytes [7],
        (delete (some "admin") "hsv" (Version.new 2 3 4) ⟨["admin"]⟩
          wst3).2) :=
  C9_cache_survives_delete (some "admin") "hsv" (Version.new 2 3 4)
    ⟨["admin"]⟩ wst3 [7] (by decide) (by decide)

/-- C10: the catalog key is exactly the numeric (major, minor, patch)
triple. Publishing a version and then a second version that differs only
in pre-release or build metadata yields Conflict for the second, and both
Catalog.insert and Catalog.delete are invariant under changes to the
non-numeric components. -/
theorem C10_numeric_key_only (ptok : Option String) (id : String)
    (v1 v2 : Version) (b1 b2 : List Nat) (st : St)
    (hauth : auth ptok st.keys = true)
    (heq : v1.major = v2.major ∧ v1.minor = v2.minor ∧ v1.patch = v2.patch)
    (habs : rowOf id v1 ∉ st.mods) :
    (upload ptok id v1 b1 st).1 = .created ∧
    (upload ptok id v2 b2 (upload ptok id v1 b1 st).2).1 = .conflict ∧
    (∀ c : Catalog, Mod.insert id v1 c = Mod.insert id v2 c) ∧
    (∀ c : Catalog, Mod.delete id v1 c = Mod.delete id v2 c) := by
  have hrow : rowOf id v1 = rowOf id v2 := by
    unfold rowOf; rw [heq.1, heq.2.1, heq.2.2]
  have hU1 : upload ptok id v1 b1 st =
      (.created,
        ⟨st.mods ++ [rowOf id v1], st.keys,
          Fs.writeFile (Fs.createDirAll st.fs (dirPath id v1))
            (leafPath id v1) b1,
          cacheInsert st.cache (id, v1) (utf8Lossy b1)⟩) := by
    simp [upload, hauth, Mod.insert_of_not_mem habs, FileRepo.write_file]
  have hmem2 : rowOf id v2 ∈ st.mods ++ [rowOf id v1] := by
    rw [← hrow]; exact List.mem_append_right _ (by simp)
  refine ⟨?_, ?_, fun c => ?_, fun c => ?_⟩
  · rw [hU1]
  · rw [hU1]
    simp [upload, hauth, Mod.insert_of_mem hmem2]
  · unfold Mod.insert; rw [hrow]
  · unfold Mod.delete; rw [hrow]

theorem C10_numeric_key_only_witness :
    (upload (some "password") "m" ⟨1, 0, 0, "beta", ""⟩ [1] wst).1 =
      .created ∧
    (upload (some "password") "m" (Version.new 1 0 0) [2]
      (upload (some "password") "m" ⟨1, 0, 0, "beta", ""⟩ [1] wst).2).1 =
      .conflict :=
  ⟨(C10_numeric_key_only (some "password") "m" ⟨1, 0, 0, "beta", ""⟩
      (Version.new 1 0 0) [1] [2] wst (by decide) (by decide)
      (by decide)).1,
    (C10_numeric_key_only (some "password") "m" ⟨1, 0, 0, "beta", ""⟩
      (Version.new 1 0 0) [1] [2] wst (by decide) (by decide)
      (by decide)).2.1⟩

end QuestIndex
